import Mathlib

/-!
Shallow embedding of the hotel-management domain model of `src/app.py`
(class `HotelManagement`).  Python dicts are modelled as association
lists in insertion order (assignment updates an existing key in place,
otherwise appends; `del` removes the entry), Python floats for prices
as exact rationals, and the `(success, message)` pairs as a structure
that also carries the resulting store state.
-/

/-- Whitespace characters removed by Python's `str.strip()` (ASCII part:
space, tab, newline, vertical tab, form feed, carriage return). -/
def isPySpace (c : Char) : Bool :=
  c = ' ' || c = '\t' || c = '\n' || c = Char.ofNat 11 || c = Char.ofNat 12 || c = '\r'

/-- Drop leading whitespace from a character list, as `str.lstrip()`. -/
def stripLeft (l : List Char) : List Char := l.dropWhile isPySpace

/-- Drop trailing whitespace from a character list, as `str.rstrip()`. -/
def stripRight (l : List Char) : List Char := (l.reverse.dropWhile isPySpace).reverse

/-- Python `str.strip()`: remove surrounding whitespace. -/
def pyStrip (s : String) : String := ⟨stripRight (stripLeft s.data)⟩

/-- Embeds `_norm` (src/app.py line 13): `str(value).strip() if value else ''`;
the only falsy string is the empty one. -/
def _norm (value : String) : String := if value = "" then "" else pyStrip value

/-- Value of an ASCII decimal digit character. -/
def charDigit (c : Char) : Nat := c.toNat - 48

/-- Accumulating scanner for the digit part of a Python integer literal:
digits with single underscores allowed between digits. -/
def digitsCore (acc : Nat) : List Char → Option Nat
  | [] => some acc
  | c :: cs =>
    if c.isDigit then digitsCore (acc * 10 + charDigit c) cs
    else if c = '_' then
      match cs with
      | d :: cs' => if d.isDigit then digitsCore (acc * 10 + charDigit d) cs' else none
      | [] => none
    else none

/-- Digit part of a Python integer literal: at least one digit, then
`digitsCore`. -/
def pyIntCore : List Char → Option Nat
  | [] => none
  | c :: cs => if c.isDigit then digitsCore (charDigit c) cs else none

/-- Embeds Python's `int(s)` on ASCII strings: surrounding whitespace is
stripped, an optional sign is followed by digits with optional single
underscores between digits; anything else raises `ValueError` (modelled
as `none`).  Non-ASCII digits accepted by CPython are not modelled. -/
def pyInt (s : String) : Option Int :=
  match (pyStrip s).data with
  | '+' :: rest => (pyIntCore rest).map (fun n => (n : Int))
  | '-' :: rest => (pyIntCore rest).map (fun n => -(n : Int))
  | l => (pyIntCore l).map (fun n => (n : Int))

/-- A Python dict with string keys, in insertion order. -/
abbrev Table (α : Type) : Type := List (String × α)

/-- Embeds Python `d[k]` lookup (as an option). -/
def dlookup {α : Type} (k : String) : Table α → Option α
  | [] => none
  | (k', v) :: rest => if k' = k then some v else dlookup k rest

/-- Embeds Python `k in d`. -/
def dmem {α : Type} (k : String) (t : Table α) : Bool := (dlookup k t).isSome

/-- Embeds Python `d[k] = v`: update in place if the key is present,
otherwise append at the end (dict insertion order). -/
def dinsert {α : Type} (k : String) (v : α) : Table α → Table α
  | [] => [(k, v)]
  | (k', v') :: rest => if k' = k then (k, v) :: rest else (k', v') :: dinsert k v rest

/-- Embeds Python `del d[k]` (keys are unique in a dict, so removing the
first entry with the key is removal of the entry). -/
def ddelete {α : Type} (k : String) : Table α → Table α
  | [] => []
  | (k', v') :: rest => if k' = k then rest else (k', v') :: ddelete k rest

/-- Embeds Python `d[k] = f(d[k])`-style in-place mutation of the value
stored at an existing key. -/
def dmodify {α : Type} (k : String) (f : α → α) : Table α → Table α
  | [] => []
  | (k', v) :: rest => if k' = k then (k', f v) :: rest else (k', v) :: dmodify k f rest

/-- The keys of a table, in order. -/
def keys {α : Type} (t : Table α) : List String := t.map (fun p => p.1)

/-- A table is a faithful image of a Python dict when its keys are
pairwise distinct. -/
abbrev NodupKeys {α : Type} (t : Table α) : Prop := (keys t).Nodup

/-- A room record: `{'room_type': ..., 'price': ..., 'is_occupied': ...}`
(src/app.py line 99); the float price is modelled as an exact rational. -/
structure Room where
  room_type : String
  price : ℚ
  is_occupied : Bool
deriving Repr, DecidableEq

/-- A customer record: `{'name': ..., 'phone': ...}` (src/app.py line 131). -/
structure Customer where
  name : String
  phone : String
deriving Repr, DecidableEq

/-- A booking record: `{'customer_id': ..., 'room_number': ...}`
(src/app.py line 160). -/
structure Booking where
  customer_id : String
  room_number : String
deriving Repr, DecidableEq

/-- The in-memory state of a `HotelManagement` object: the three dicts
`self.rooms`, `self.customers`, `self.bookings`. -/
structure Store where
  rooms : Table Room
  customers : Table Customer
  bookings : Table Booking
deriving Repr, DecidableEq

/-- `self.max_rooms` (src/app.py line 21). -/
def max_rooms : Nat := 20

/-- The store of a freshly constructed `HotelManagement` with no data
files present (all three dicts empty). -/
def emptyStore : Store := ⟨[], [], []⟩

/-- Result of a domain operation: the returned `(success, message)` pair
together with the store state after the call (`save_data` writes the
state to disk unchanged, so it is omitted). -/
structure OpResult where
  success : Bool
  message : String
  state : Store
deriving Repr, DecidableEq

/-- Embeds `HotelManagement.add_room` (src/app.py lines 87-103).  The
`price` argument is `none` when the caller passes `None`; a room number
that `int()` cannot parse raises `ValueError`, caught by the generic
`except` branch. -/
def add_room (s : Store) (room_number room_type : String) (price : Option ℚ) : OpResult :=
  let rn := _norm room_number
  let rt := _norm room_type
  if rn = "" || rt = "" then ⟨false, "Invalid room details", s⟩
  else
    match price with
    | none => ⟨false, "Invalid room details", s⟩
    | some pr =>
      if pr ≤ 0 then ⟨false, "Invalid room details", s⟩
      else
        match pyInt rn with
        | none => ⟨false, "Error adding room: invalid literal for int() with base 10: '" ++ rn ++ "'", s⟩
        | some k =>
          if k < 1001 || 1020 < k then ⟨false, "Room number must be between 1001-1020", s⟩
          else if dmem rn s.rooms then ⟨false, "Room " ++ rn ++ " already exists", s⟩
          else if max_rooms ≤ s.rooms.length then
            ⟨false, "Cannot add more rooms. Capacity " ++ toString max_rooms ++ " reached", s⟩
          else ⟨true, "Room " ++ rn ++ " added successfully",
            { s with rooms := dinsert rn ⟨rt, pr, false⟩ s.rooms }⟩

/-- Embeds `HotelManagement.remove_room` (src/app.py lines 105-115); note
the room number is used verbatim, with no `_norm`. -/
def remove_room (s : Store) (room_number : String) : OpResult :=
  match dlookup room_number s.rooms with
  | none => ⟨false, "Room not found", s⟩
  | some r =>
    if r.is_occupied then ⟨false, "Room is occupied", s⟩
    else ⟨true, "Room " ++ room_number ++ " removed",
      { s with rooms := ddelete room_number s.rooms }⟩

/-- The duplicate scan of `add_customer` (src/app.py lines 126-130): walk
the existing customer records in order; a matching phone is reported
first, so the name-and-phone branch can only fire if the phone branch
did not (it is in fact unreachable, but embedded faithfully). -/
def dupCheck (nm ph : String) : List Customer → Option String
  | [] => none
  | c :: rest =>
    if _norm c.phone = ph then some "Customer with this phone already exists"
    else if _norm c.name = nm && _norm c.phone = ph then some "Customer already exists"
    else dupCheck nm ph rest

/-- Embeds `HotelManagement.add_customer` (src/app.py lines 117-135). -/
def add_customer (s : Store) (customer_id name phone : String) : OpResult :=
  let cid := _norm customer_id
  let nm := _norm name
  let ph := _norm phone
  if cid = "" || nm = "" || ph = "" then ⟨false, "Invalid customer details", s⟩
  else if dmem cid s.customers then ⟨false, "Customer ID exists", s⟩
  else
    match dupCheck nm ph (s.customers.map (fun p => p.2)) with
    | some msg => ⟨false, msg, s⟩
    | none => ⟨true, "Customer " ++ nm ++ " added",
        { s with customers := dinsert cid ⟨nm, ph⟩ s.customers }⟩

/-- Embeds `HotelManagement.remove_customer` (src/app.py lines 137-147);
the customer id is used verbatim, with no `_norm`. -/
def remove_customer (s : Store) (customer_id : String) : OpResult :=
  if !(dmem customer_id s.customers) then ⟨false, "Customer not found", s⟩
  else if s.bookings.any (fun p => p.2.customer_id = customer_id) then
    ⟨false, "Customer has active bookings", s⟩
  else ⟨true, "Customer removed", { s with customers := ddelete customer_id s.customers }⟩

/-- Embeds `HotelManagement.book_room` (src/app.py lines 149-165).  The
booking id is `"B" + str(len(self.bookings) + 1)`; the dict assignment
overwrites any existing booking stored under that id. -/
def book_room (s : Store) (customer_id room_number : String) : OpResult :=
  let cid := _norm customer_id
  let rn := _norm room_number
  match dlookup cid s.customers, dlookup rn s.rooms with
  | some _, some r =>
    if r.is_occupied then ⟨false, "Room is occupied", s⟩
    else if s.bookings.any (fun p => p.2.customer_id = cid) then
      ⟨false, "Customer already has an active booking", s⟩
    else ⟨true, "Room " ++ rn ++ " booked",
      ⟨dmodify rn (fun r0 => { r0 with is_occupied := true }) s.rooms,
       s.customers,
       dinsert ("B" ++ toString (s.bookings.length + 1)) ⟨cid, rn⟩ s.bookings⟩⟩
  | _, _ => ⟨false, "Invalid customer or room", s⟩

/-- The checkout loop (src/app.py lines 173-176): delete the first
booking whose `room_number` matches, then stop. -/
def delFirstRoomBooking (rn : String) : Table Booking → Table Booking
  | [] => []
  | (bid, b) :: rest =>
    if b.room_number = rn then rest else (bid, b) :: delFirstRoomBooking rn rest

/-- Embeds `HotelManagement.checkout` (src/app.py lines 167-181); the
room number is used verbatim, with no `_norm`. -/
def checkout (s : Store) (room_number : String) : OpResult :=
  match dlookup room_number s.rooms with
  | none => ⟨false, "Room not found", s⟩
  | some r =>
    if !r.is_occupied then ⟨false, "Room not occupied", s⟩
    else ⟨true, "Room " ++ room_number ++ " checked out",
      ⟨dmodify room_number (fun r0 => { r0 with is_occupied := false }) s.rooms,
       s.customers,
       delFirstRoomBooking room_number s.bookings⟩⟩

/-- One invocation of a domain operation, with its arguments. -/
inductive Op where
  | addRoom (room_number room_type : String) (price : Option ℚ)
  | removeRoom (room_number : String)
  | addCustomer (customer_id name phone : String)
  | removeCustomer (customer_id : String)
  | bookRoom (customer_id room_number : String)
  | checkoutOp (room_number : String)

/-- The state transition of one operation (the returned pair is dropped). -/
def step (s : Store) : Op → Store
  | .addRoom n t p => (add_room s n t p).state
  | .removeRoom n => (remove_room s n).state
  | .addCustomer c n p => (add_customer s c n p).state
  | .removeCustomer c => (remove_customer s c).state
  | .bookRoom c n => (book_room s c n).state
  | .checkoutOp n => (checkout s n).state

/-- Run a sequence of operations from the empty store. -/
def runOps (ops : List Op) : Store := ops.foldl step emptyStore

/-- A store is reachable when some sequence of domain operations produces
it from the empty store. -/
def Reachable (s : Store) : Prop := ∃ ops : List Op, runOps ops = s

/-! ### Lemmas about stripping -/

/-- Dropping a satisfied run twice is the same as dropping it once. -/
lemma dropWhile_idem {α : Type} (p : α → Bool) (l : List α) :
    List.dropWhile p (List.dropWhile p l) = List.dropWhile p l := by
  induction l with
  | nil => rfl
  | cons a t ih =>
    by_cases h : p a
    · simp [List.dropWhile_cons, h, ih]
    · simp [List.dropWhile_cons, h]

/-- Left stripping is idempotent. -/
lemma stripLeft_idem (l : List Char) : stripLeft (stripLeft l) = stripLeft l :=
  dropWhile_idem isPySpace l

/-- Right stripping is idempotent. -/
lemma stripRight_idem (l : List Char) : stripRight (stripRight l) = stripRight l := by
  unfold stripRight
  rw [List.reverse_reverse, dropWhile_idem]

/-- Dropping a run from the front is taking a suffix. -/
lemma dropWhile_eq_drop {α : Type} (p : α → Bool) (l : List α) :
    ∃ n, List.dropWhile p l = l.drop n := by
  induction l with
  | nil => exact ⟨0, rfl⟩
  | cons a t ih =>
    by_cases h : p a
    · obtain ⟨n, hn⟩ := ih
      exact ⟨n + 1, by simp [List.dropWhile_cons, h, hn]⟩
    · exact ⟨0, by simp [List.dropWhile_cons, h]⟩

/-- A left-stripped list stays left-stripped when truncated. -/
lemma stripLeft_take (l : List Char) (h : stripLeft l = l) (m : Nat) :
    stripLeft (l.take m) = l.take m := by
  cases l with
  | nil => simp [stripLeft]
  | cons a t =>
    have ha : isPySpace a = false := by
      by_cases hp : isPySpace a
      · exfalso
        have hlen := (List.dropWhile_sublist (l := t) isPySpace).length_le
        unfold stripLeft at h
        rw [List.dropWhile_cons, if_pos hp] at h
        rw [h] at hlen
        simp at hlen
      · simpa using hp
    cases m with
    | zero => simp [stripLeft]
    | succ m' => simp [stripLeft, List.dropWhile_cons, ha]

/-- Right stripping truncates the list. -/
lemma stripRight_eq_take (l : List Char) : ∃ m, stripRight l = l.take m := by
  obtain ⟨n, hn⟩ := dropWhile_eq_drop isPySpace l.reverse
  refine ⟨l.reverse.length - n, ?_⟩
  unfold stripRight
  rw [hn, List.reverse_drop, List.reverse_reverse]

/-- Right stripping preserves being left-stripped. -/
lemma stripLeft_stripRight (l : List Char) (h : stripLeft l = l) :
    stripLeft (stripRight l) = stripRight l := by
  obtain ⟨m, hm⟩ := stripRight_eq_take l
  rw [hm]
  exact stripLeft_take l h m

/-- Python's `strip` is idempotent. -/
lemma pyStrip_idem (s : String) : pyStrip (pyStrip s) = pyStrip s := by
  show (⟨stripRight (stripLeft (stripRight (stripLeft s.data)))⟩ : String)
      = ⟨stripRight (stripLeft s.data)⟩
  rw [stripLeft_stripRight _ (stripLeft_idem s.data), stripRight_idem]

/-- On strings, `_norm` coincides with `strip` (the only falsy string is
the empty one, and stripping it is a no-op). -/
lemma _norm_eq_pyStrip (s : String) : _norm s = pyStrip s := by
  unfold _norm
  by_cases h : s = ""
  · rw [if_pos h, h]
    rfl
  · rw [if_neg h]

/-- Normalization is invariant under pre-stripping. -/
lemma _norm_pyStrip (s : String) : _norm (pyStrip s) = _norm s := by
  rw [_norm_eq_pyStrip, _norm_eq_pyStrip, pyStrip_idem]

/-- Normalization is idempotent. -/
lemma _norm_idem (s : String) : _norm (_norm s) = _norm s := by
  rw [_norm_eq_pyStrip s, _norm_pyStrip, _norm_eq_pyStrip]

/-! ### Lemmas about the dict model -/

/-- A key is absent exactly when no entry carries it. -/
lemma dlookup_eq_none_iff {α : Type} {k : String} {t : Table α} :
    dlookup k t = none ↔ ∀ p ∈ t, p.1 ≠ k := by
  induction t with
  | nil => simp [dlookup]
  | cons q rest ih =>
    obtain ⟨k', v'⟩ := q
    by_cases h : k' = k
    · simp [dlookup, h]
    · simp [dlookup, h, ih]

/-- A successful lookup exhibits an entry of the table. -/
lemma dlookup_mem {α : Type} {k : String} {v : α} {t : Table α}
    (h : dlookup k t = some v) : (k, v) ∈ t := by
  induction t with
  | nil => simp [dlookup] at h
  | cons q rest ih =>
    obtain ⟨k', v'⟩ := q
    by_cases hk : k' = k
    · rw [dlookup, if_pos hk] at h
      obtain rfl := Option.some_injective _ h
      simp [hk]
    · rw [dlookup, if_neg hk] at h
      simp [ih h]

/-- Absence of a key, phrased on `dmem`. -/
lemma dmem_eq_false_iff {α : Type} {k : String} {t : Table α} :
    dmem k t = false ↔ ∀ p ∈ t, p.1 ≠ k := by
  constructor
  · intro hm p hp hpk
    cases h : dlookup k t with
    | none => exact (dlookup_eq_none_iff.mp h) p hp hpk
    | some v =>
      rw [dmem, h] at hm
      simp at hm
  · intro hall
    rw [dmem, dlookup_eq_none_iff.mpr hall]
    rfl

/-- Presence of a key, phrased on the key list. -/
lemma dmem_iff_mem_keys {α : Type} {k : String} {t : Table α} :
    dmem k t = true ↔ k ∈ keys t := by
  constructor
  · intro h
    cases hl : dlookup k t with
    | none =>
      rw [dmem, hl] at h
      simp at h
    | some v => exact List.mem_map.mpr ⟨(k, v), dlookup_mem hl, rfl⟩
  · intro hk
    by_cases h : dmem k t
    · exact h
    · exfalso
      obtain ⟨p, hp, hpk⟩ := List.mem_map.mp hk
      exact (dmem_eq_false_iff.mp (by simpa using h)) p hp hpk

/-- Inserting a fresh key appends the entry. -/
lemma dinsert_fresh {α : Type} {k : String} (v : α) {t : Table α}
    (h : dmem k t = false) : dinsert k v t = t ++ [(k, v)] := by
  induction t with
  | nil => rfl
  | cons q rest ih =>
    obtain ⟨k', v'⟩ := q
    rw [dmem_eq_false_iff] at h
    have hk : k' ≠ k := h (k', v') (by simp)
    rw [dinsert, if_neg hk, List.cons_append]
    congr 1
    apply ih
    rw [dmem_eq_false_iff]
    intro p hp
    exact h p (by simp [hp])

/-- Entries after an insertion: the new entry or an old one. -/
lemma mem_dinsert {α : Type} {k : String} {v : α} {t : Table α} {p : String × α}
    (h : p ∈ dinsert k v t) : p = (k, v) ∨ p ∈ t := by
  induction t with
  | nil => simpa [dinsert] using h
  | cons q rest ih =>
    obtain ⟨k', v'⟩ := q
    by_cases hk : k' = k
    · rw [dinsert, if_pos hk] at h
      rcases List.mem_cons.mp h with h1 | h1
      · exact Or.inl h1
      · exact Or.inr (by simp [h1])
    · rw [dinsert, if_neg hk] at h
      rcases List.mem_cons.mp h with h1 | h1
      · exact Or.inr (by simp [h1])
      · rcases ih h1 with h2 | h2
        · exact Or.inl h2
        · exact Or.inr (by simp [h2])

/-- Looking up the inserted key finds the inserted value. -/
lemma dlookup_dinsert_self {α : Type} (k : String) (v : α) (t : Table α) :
    dlookup k (dinsert k v t) = some v := by
  induction t with
  | nil => simp [dinsert, dlookup]
  | cons q rest ih =>
    obtain ⟨k', v'⟩ := q
    by_cases hk : k' = k
    · rw [dinsert, if_pos hk, dlookup, if_pos rfl]
    · rw [dinsert, if_neg hk, dlookup, if_neg hk]
      exact ih

/-- Insertion does not disturb lookups of other keys. -/
lemma dlookup_dinsert_ne {α : Type} {k' k : String} (v : α) (t : Table α)
    (h : k' ≠ k) : dlookup k' (dinsert k v t) = dlookup k' t := by
  have h' : k ≠ k' := fun hh => h hh.symm
  induction t with
  | nil => simp [dinsert, dlookup, h']
  | cons q rest ih =>
    obtain ⟨k0, v0⟩ := q
    by_cases hk : k0 = k
    · subst hk
      rw [dinsert, if_pos rfl, dlookup, dlookup, if_neg h', if_neg h']
    · rw [dinsert, if_neg hk]
      by_cases hk' : k0 = k'
      · rw [dlookup, if_pos hk', dlookup, if_pos hk']
      · rw [dlookup, if_neg hk', dlookup, if_neg hk']
        exact ih

/-- Updating an existing key keeps the key list unchanged. -/
lemma keys_dinsert_mem {α : Type} {k : String} (v : α) {t : Table α}
    (h : k ∈ keys t) : keys (dinsert k v t) = keys t := by
  induction t with
  | nil => simp [keys] at h
  | cons q rest ih =>
    obtain ⟨k', v'⟩ := q
    by_cases hk : k' = k
    · rw [dinsert, if_pos hk]
      simp [keys, hk]
    · rw [dinsert, if_neg hk]
      have hmem : k ∈ keys rest := by
        have h1 : k = k' ∨ k ∈ keys rest := by simpa [keys] using h
        rcases h1 with h1 | h1
        · exact absurd h1.symm hk
        · exact h1
      show k' :: keys (dinsert k v rest) = k' :: keys rest
      rw [ih hmem]

/-- Insertion preserves distinctness of keys. -/
lemma nodup_dinsert {α : Type} (k : String) (v : α) {t : Table α}
    (h : NodupKeys t) : NodupKeys (dinsert k v t) := by
  by_cases hk : dmem k t
  · show (keys (dinsert k v t)).Nodup
    rw [keys_dinsert_mem v (dmem_iff_mem_keys.mp hk)]
    exact h
  · have hk' : dmem k t = false := by simpa using hk
    show (keys (dinsert k v t)).Nodup
    rw [dinsert_fresh v hk']
    have hkeys : keys (t ++ [(k, v)]) = keys t ++ [k] := by simp [keys]
    rw [hkeys, List.nodup_append]
    refine ⟨h, by simp, ?_⟩
    intro a ha hb
    simp only [List.mem_singleton] at hb
    subst hb
    have ha' : a ∈ List.map (fun p => p.1) t := ha
    obtain ⟨p, hp, hpk⟩ := List.mem_map.mp ha'
    exact dmem_eq_false_iff.mp hk' p hp hpk

/-- Inserting a fresh key grows the table by one entry. -/
lemma length_dinsert_fresh {α : Type} {k : String} (v : α) {t : Table α}
    (h : dmem k t = false) : (dinsert k v t).length = t.length + 1 := by
  rw [dinsert_fresh v h, List.length_append, List.length_singleton]

/-- Deletion yields a sublist of the table. -/
lemma ddelete_sublist {α : Type} (k : String) (t : Table α) :
    (ddelete k t).Sublist t := by
  induction t with
  | nil => simp [ddelete]
  | cons q rest ih =>
    obtain ⟨k', v'⟩ := q
    by_cases hk : k' = k
    · rw [ddelete, if_pos hk]
      exact (List.sublist_cons_self _ _)
    · rw [ddelete, if_neg hk]
      exact ih.cons₂ _

/-- Deleting one key does not disturb lookups of other keys. -/
lemma dlookup_ddelete_ne {α : Type} {k' k : String} (t : Table α)
    (h : k' ≠ k) : dlookup k' (ddelete k t) = dlookup k' t := by
  induction t with
  | nil => rfl
  | cons q rest ih =>
    obtain ⟨k0, v0⟩ := q
    by_cases hk : k0 = k
    · subst hk
      rw [ddelete, if_pos rfl, dlookup, if_neg (fun hh => h hh.symm)]
    · rw [ddelete, if_neg hk]
      by_cases hk' : k0 = k'
      · rw [dlookup, if_pos hk', dlookup, if_pos hk']
      · rw [dlookup, if_neg hk', dlookup, if_neg hk']
        exact ih

/-- In-place value mutation keeps the key list unchanged. -/
lemma keys_dmodify {α : Type} (k : String) (f : α → α) (t : Table α) :
    keys (dmodify k f t) = keys t := by
  induction t with
  | nil => rfl
  | cons q rest ih =>
    obtain ⟨k', v'⟩ := q
    by_cases hk : k' = k
    · rw [dmodify, if_pos hk]
      rfl
    · rw [dmodify, if_neg hk]
      show k' :: keys (dmodify k f rest) = k' :: keys rest
      rw [ih]

/-- In-place value mutation keeps the size unchanged. -/
lemma length_dmodify {α : Type} (k : String) (f : α → α) (t : Table α) :
    (dmodify k f t).length = t.length := by
  have h := keys_dmodify k f t
  have h1 : (keys (dmodify k f t)).length = (dmodify k f t).length := List.length_map _ _
  have h2 : (keys t).length = t.length := List.length_map _ _
  rw [← h1, ← h2, h]

/-- Mutating the value at a present key is visible at that key. -/
lemma dlookup_dmodify_self {α : Type} {k : String} {v : α} (f : α → α) {t : Table α}
    (h : dlookup k t = some v) : dlookup k (dmodify k f t) = some (f v) := by
  induction t with
  | nil => simp [dlookup] at h
  | cons q rest ih =>
    obtain ⟨k', v'⟩ := q
    by_cases hk : k' = k
    · rw [dlookup, if_pos hk] at h
      obtain rfl := Option.some_injective _ h
      rw [dmodify, if_pos hk, dlookup, if_pos hk]
    · rw [dlookup, if_neg hk] at h
      rw [dmodify, if_neg hk, dlookup, if_neg hk]
      exact ih h

/-- Mutating the value at one key does not disturb lookups of other keys. -/
lemma dlookup_dmodify_ne {α : Type} {k' k : String} (f : α → α) (t : Table α)
    (h : k' ≠ k) : dlookup k' (dmodify k f t) = dlookup k' t := by
  induction t with
  | nil => rfl
  | cons q rest ih =>
    obtain ⟨k0, v0⟩ := q
    by_cases hk : k0 = k
    · subst hk
      rw [dmodify, if_pos rfl, dlookup, dlookup,
        if_neg (fun hh => h hh.symm), if_neg (fun hh => h hh.symm)]
    · rw [dmodify, if_neg hk]
      by_cases hk' : k0 = k'
      · rw [dlookup, if_pos hk', dlookup, if_pos hk']
      · rw [dlookup, if_neg hk', dlookup, if_neg hk']
        exact ih

/-- Entries after an in-place mutation come from entries of the table. -/
lemma mem_dmodify {α : Type} {k : String} {f : α → α} {t : Table α} {p : String × α}
    (h : p ∈ dmodify k f t) : p ∈ t ∨ ∃ v, (k, v) ∈ t ∧ p = (k, f v) := by
  induction t with
  | nil => simp [dmodify] at h
  | cons q rest ih =>
    obtain ⟨k', v'⟩ := q
    by_cases hk : k' = k
    · rw [dmodify, if_pos hk] at h
      rcases List.mem_cons.mp h with h1 | h1
      · subst hk
        exact Or.inr ⟨v', by simp, h1⟩
      · exact Or.inl (List.mem_cons_of_mem _ h1)
    · rw [dmodify, if_neg hk] at h
      rcases List.mem_cons.mp h with h1 | h1
      · exact Or.inl (by simp [h1])
      · rcases ih h1 with h2 | ⟨v, hv, hp⟩
        · exact Or.inl (List.mem_cons_of_mem _ h2)
        · exact Or.inr ⟨v, List.mem_cons_of_mem _ hv, hp⟩

/-- Pairwise relations survive a dict assignment when the new entry is
related (in both directions) to every old entry. -/
lemma pairwise_dinsert {α : Type} {R : String × α → String × α → Prop}
    {k : String} {v : α} {t : Table α} (hp : t.Pairwise R)
    (hnew : ∀ p ∈ t, R (k, v) p ∧ R p (k, v)) :
    (dinsert k v t).Pairwise R := by
  induction t with
  | nil => simp [dinsert]
  | cons q rest ih =>
    obtain ⟨k', v'⟩ := q
    rcases List.pairwise_cons.mp hp with ⟨hq, hrest⟩
    by_cases hk : k' = k
    · rw [dinsert, if_pos hk]
      exact List.pairwise_cons.mpr ⟨fun p hp' => (hnew p (List.mem_cons_of_mem _ hp')).1, hrest⟩
    · rw [dinsert, if_neg hk]
      refine List.pairwise_cons.mpr ⟨?_, ih hrest (fun p hp' => hnew p (List.mem_cons_of_mem _ hp'))⟩
      intro p hp'
      rcases mem_dinsert hp' with h1 | h1
      · subst h1
        exact (hnew (k', v') (by simp)).2
      · exact hq p h1

/-- The checkout loop removes a sublist (at most one entry). -/
lemma delFirstRoomBooking_sublist (rn : String) (t : Table Booking) :
    (delFirstRoomBooking rn t).Sublist t := by
  induction t with
  | nil => simp [delFirstRoomBooking]
  | cons q rest ih =>
    obtain ⟨bid, b⟩ := q
    by_cases hb : b.room_number = rn
    · rw [delFirstRoomBooking, if_pos hb]
      exact List.sublist_cons_self _ _
    · rw [delFirstRoomBooking, if_neg hb]
      exact ih.cons₂ _

/-- When no booking references the room, the checkout loop deletes nothing. -/
lemma delFirstRoomBooking_eq_self {rn : String} {t : Table Booking}
    (h : ∀ p ∈ t, p.2.room_number ≠ rn) : delFirstRoomBooking rn t = t := by
  induction t with
  | nil => rfl
  | cons q rest ih =>
    obtain ⟨bid, b⟩ := q
    rw [delFirstRoomBooking, if_neg (h (bid, b) (by simp))]
    rw [ih (fun p hp => h p (List.mem_cons_of_mem _ hp))]

/-- When bookings reference pairwise distinct rooms, nothing left after
the checkout loop references the checked-out room. -/
lemma mem_delFirstRoomBooking_ne {rn : String} {t : Table Booking}
    (hp : t.Pairwise (fun p q => p.2.room_number ≠ q.2.room_number)) :
    ∀ p ∈ delFirstRoomBooking rn t, p.2.room_number ≠ rn := by
  induction t with
  | nil => simp [delFirstRoomBooking]
  | cons q rest ih =>
    obtain ⟨bid, b⟩ := q
    rcases List.pairwise_cons.mp hp with ⟨hq, hrest⟩
    by_cases hb : b.room_number = rn
    · rw [delFirstRoomBooking, if_pos hb]
      intro p hp' hpr
      exact hq p hp' (by rw [hpr, hb])
    · rw [delFirstRoomBooking, if_neg hb]
      intro p hp'
      rcases List.mem_cons.mp hp' with h1 | h1
      · rw [h1]
        exact hb
      · exact ih hrest p h1

/-! ### The reachable-state invariant -/

/-- A key found by lookup is among the keys. -/
lemma dlookup_mem_keys {α : Type} {k : String} {v : α} {t : Table α}
    (h : dlookup k t = some v) : k ∈ keys t :=
  List.mem_map.mpr ⟨(k, v), dlookup_mem h, rfl⟩

/-- Normalized strings are strip-fixed. -/
lemma pyStrip_norm (s : String) : pyStrip (_norm s) = _norm s := by
  rw [_norm_eq_pyStrip, pyStrip_idem]

/-- Structural invariants holding in every reachable store: keys are
unique and normalized, phone numbers are unique, bookings reference
existing customers and existing occupied rooms, no customer and no room
is referenced by two bookings, and the room table respects the capacity. -/
structure StoreInv (s : Store) : Prop where
  rooms_nodup : NodupKeys s.rooms
  customers_nodup : NodupKeys s.customers
  bookings_nodup : NodupKeys s.bookings
  rooms_le : s.rooms.length ≤ max_rooms
  room_keys_norm : ∀ k ∈ keys s.rooms, pyStrip k = k ∧ k ≠ ""
  cust_keys_norm : ∀ k ∈ keys s.customers, pyStrip k = k ∧ k ≠ ""
  phones_norm : ∀ p ∈ s.customers, pyStrip p.2.phone = p.2.phone
  phones_nodup : (s.customers.map (fun p => p.2.phone)).Nodup
  book_cust_mem : ∀ p ∈ s.bookings, dmem p.2.customer_id s.customers = true
  book_cust_uniq : s.bookings.Pairwise (fun p q => p.2.customer_id ≠ q.2.customer_id)
  book_room_occ : ∀ p ∈ s.bookings,
    ∃ r, dlookup p.2.room_number s.rooms = some r ∧ r.is_occupied = true
  book_room_uniq : s.bookings.Pairwise (fun p q => p.2.room_number ≠ q.2.room_number)

/-- The empty store satisfies the invariant. -/
lemma inv_empty : StoreInv emptyStore := by
  constructor <;> simp [NodupKeys, keys, emptyStore, max_rooms]

/-- `add_room` preserves the invariant. -/
lemma inv_add_room (s : Store) (n t : String) (p : Option ℚ) (h : StoreInv s) :
    StoreInv (add_room s n t p).state := by
  unfold add_room
  dsimp only
  split
  · exact h
  next hempty =>
  split
  · exact h
  next pr =>
  split
  · exact h
  next hpr =>
  split
  · exact h
  next k hk =>
  split
  · exact h
  next hrange =>
  split
  · exact h
  next hmem =>
  split
  · exact h
  next hcap =>
  have hfresh : dmem (_norm n) s.rooms = false := by simpa using hmem
  have hlen : (dinsert (_norm n) ⟨_norm t, pr, false⟩ s.rooms).length ≤ max_rooms := by
    rw [length_dinsert_fresh _ hfresh]
    simp only [not_le] at hcap
    omega
  have hne : _norm n ≠ "" := by
    intro hc
    simp [hc] at hempty
  constructor
  · exact nodup_dinsert _ _ h.rooms_nodup
  · exact h.customers_nodup
  · exact h.bookings_nodup
  · exact hlen
  · intro k' hk'
    rw [dinsert_fresh _ hfresh] at hk'
    have hk'' : k' ∈ keys s.rooms ++ [_norm n] := by
      simpa [keys] using hk'
    rcases List.mem_append.mp hk'' with h1 | h1
    · exact h.room_keys_norm k' h1
    · rw [List.mem_singleton] at h1
      subst h1
      exact ⟨pyStrip_norm n, hne⟩
  · exact h.cust_keys_norm
  · exact h.phones_norm
  · exact h.phones_nodup
  · exact h.book_cust_mem
  · exact h.book_cust_uniq
  · intro b hb
    obtain ⟨r, hr, hocc⟩ := h.book_room_occ b hb
    refine ⟨r, ?_, hocc⟩
    rw [dlookup_dinsert_ne]
    · exact hr
    · intro hc
      rw [hc] at hr
      have := dlookup_mem_keys hr
      rw [← dmem_iff_mem_keys] at this
      rw [this] at hfresh
      cases hfresh
  · exact h.book_room_uniq

/-- `remove_room` preserves the invariant. -/
lemma inv_remove_room (s : Store) (n : String) (h : StoreInv s) :
    StoreInv (remove_room s n).state := by
  unfold remove_room
  split
  · exact h
  next r hr =>
  split
  · exact h
  next hocc =>
  constructor
  · exact List.Nodup.sublist ((ddelete_sublist n s.rooms).map _) h.rooms_nodup
  · exact h.customers_nodup
  · exact h.bookings_nodup
  · exact le_trans ((ddelete_sublist n s.rooms).length_le) h.rooms_le
  · intro k hk
    obtain ⟨p, hp, hpk⟩ := List.mem_map.mp hk
    exact h.room_keys_norm k
      (List.mem_map.mpr ⟨p, (ddelete_sublist n s.rooms).mem hp, hpk⟩)
  · exact h.cust_keys_norm
  · exact h.phones_norm
  · exact h.phones_nodup
  · exact h.book_cust_mem
  · exact h.book_cust_uniq
  · intro b hb
    obtain ⟨rb, hrb, hrocc⟩ := h.book_room_occ b hb
    refine ⟨rb, ?_, hrocc⟩
    rw [dlookup_ddelete_ne]
    · exact hrb
    · intro hc
      rw [hc, hr] at hrb
      obtain rfl := Option.some_injective _ hrb
      exact hocc hrocc
  · exact h.book_room_uniq

/-- A `none` result of the duplicate scan means no record matches the
new phone. -/
lemma dupCheck_none {nm ph : String} {l : List Customer}
    (h : dupCheck nm ph l = none) : ∀ c ∈ l, _norm c.phone ≠ ph := by
  induction l with
  | nil => simp
  | cons c rest ih =>
    rw [dupCheck] at h
    by_cases h1 : _norm c.phone = ph
    · rw [if_pos h1] at h
      cases h
    · rw [if_neg h1] at h
      by_cases h2 : (_norm c.name = nm && _norm c.phone = ph : Bool)
      · rw [if_pos h2] at h
        cases h
      · rw [if_neg h2] at h
        intro c' hc'
        rcases List.mem_cons.mp hc' with h3 | h3
        · rw [h3]
          exact h1
        · exact ih h c' h3

/-- `add_customer` preserves the invariant. -/
lemma inv_add_customer (s : Store) (cid nm ph : String) (h : StoreInv s) :
    StoreInv (add_customer s cid nm ph).state := by
  unfold add_customer
  dsimp only
  split
  · exact h
  next hempty =>
  split
  · exact h
  next hmem =>
  split
  · exact h
  next hdup =>
  have hfresh : dmem (_norm cid) s.customers = false := by simpa using hmem
  have hne : _norm cid ≠ "" ∧ _norm nm ≠ "" ∧ _norm ph ≠ "" := by
    constructor
    · intro hc
      simp [hc] at hempty
    constructor
    · intro hc
      simp [hc] at hempty
    · intro hc
      simp [hc] at hempty
  have hph : ∀ c ∈ s.customers.map (fun p => p.2), _norm c.phone ≠ _norm ph :=
    dupCheck_none hdup
  have heq : dinsert (_norm cid) ⟨_norm nm, _norm ph⟩ s.customers
      = s.customers ++ [(_norm cid, ⟨_norm nm, _norm ph⟩)] := dinsert_fresh _ hfresh
  constructor
  · exact h.rooms_nodup
  · exact nodup_dinsert _ _ h.customers_nodup
  · exact h.bookings_nodup
  · exact h.rooms_le
  · exact h.room_keys_norm
  · intro k hk
    rw [heq] at hk
    have hk' : k ∈ keys s.customers ++ [_norm cid] := by simpa [keys] using hk
    rcases List.mem_append.mp hk' with h1 | h1
    · exact h.cust_keys_norm k h1
    · rw [List.mem_singleton] at h1
      subst h1
      exact ⟨pyStrip_norm cid, hne.1⟩
  · intro p hp
    rw [heq] at hp
    rcases List.mem_append.mp hp with h1 | h1
    · exact h.phones_norm p h1
    · rw [List.mem_singleton] at h1
      subst h1
      exact pyStrip_norm ph
  · rw [heq, List.map_append, List.nodup_append]
    refine ⟨h.phones_nodup, by simp, ?_⟩
    intro a ha hb
    simp only [List.map_cons, List.map_nil, List.mem_singleton] at hb
    subst hb
    obtain ⟨p, hp, hpa⟩ := List.mem_map.mp ha
    have hnorm := h.phones_norm p hp
    have := hph p.2 (List.mem_map.mpr ⟨p, hp, rfl⟩)
    rw [_norm_eq_pyStrip, hnorm, hpa] at this
    exact this rfl
  · intro b hb
    have hmem' := h.book_cust_mem b hb
    rw [dmem_iff_mem_keys] at hmem' ⊢
    rw [heq]
    have : keys (s.customers ++ [(_norm cid, ⟨_norm nm, _norm ph⟩)])
        = keys s.customers ++ [_norm cid] := by simp [keys]
    rw [this]
    exact List.mem_append.mpr (Or.inl hmem')
  · exact h.book_cust_uniq
  · exact h.book_room_occ
  · exact h.book_room_uniq

/-- `remove_customer` preserves the invariant. -/
lemma inv_remove_customer (s : Store) (cid : String) (h : StoreInv s) :
    StoreInv (remove_customer s cid).state := by
  unfold remove_customer
  split
  · exact h
  next hmem =>
  split
  · exact h
  next hany =>
  have hno : ∀ p ∈ s.bookings, p.2.customer_id ≠ cid := by
    intro p hp
    have := (by simpa using hany : ∀ p ∈ s.bookings, ¬ p.2.customer_id = cid)
    exact this p hp
  constructor
  · exact h.rooms_nodup
  · exact List.Nodup.sublist ((ddelete_sublist cid s.customers).map _) h.customers_nodup
  · exact h.bookings_nodup
  · exact h.rooms_le
  · exact h.room_keys_norm
  · intro k hk
    obtain ⟨p, hp, hpk⟩ := List.mem_map.mp hk
    exact h.cust_keys_norm k
      (List.mem_map.mpr ⟨p, (ddelete_sublist cid s.customers).mem hp, hpk⟩)
  · intro p hp
    exact h.phones_norm p ((ddelete_sublist cid s.customers).mem hp)
  · exact List.Nodup.sublist ((ddelete_sublist cid s.customers).map _) h.phones_nodup
  · intro b hb
    have hb' := h.book_cust_mem b hb
    rw [dmem, dlookup_ddelete_ne _ (hno b hb)]
    rw [dmem] at hb'
    exact hb'
  · exact h.book_cust_uniq
  · exact h.book_room_occ
  · exact h.book_room_uniq

/-- In a store satisfying the invariant, no booking references a room
that is currently unoccupied. -/
lemma no_booking_for_unoccupied {s : Store} (h : StoreInv s) {rn : String} {r : Room}
    (hr : dlookup rn s.rooms = some r) (hocc : r.is_occupied = false) :
    ∀ p ∈ s.bookings, p.2.room_number ≠ rn := by
  intro p hp hc
  obtain ⟨rb, hrb, hrocc⟩ := h.book_room_occ p hp
  rw [hc, hr] at hrb
  obtain rfl := Option.some_injective _ hrb
  rw [hocc] at hrocc
  cases hrocc

/-- `book_room` preserves the invariant. -/
lemma inv_book_room (s : Store) (cid rn : String) (h : StoreInv s) :
    StoreInv (book_room s cid rn).state := by
  unfold book_room
  dsimp only
  split
  case h_2 => exact h
  next c r hc hr =>
  split
  · exact h
  next hocc =>
  split
  · exact h
  next hany =>
  have hocc' : r.is_occupied = false := by simpa using hocc
  have hnobook : ∀ p ∈ s.bookings, p.2.room_number ≠ _norm rn :=
    no_booking_for_unoccupied h hr hocc'
  have hnocust : ∀ p ∈ s.bookings, p.2.customer_id ≠ _norm cid := by
    intro p hp
    have := (by simpa using hany : ∀ p ∈ s.bookings, ¬ p.2.customer_id = _norm cid)
    exact this p hp
  constructor
  · show (keys (dmodify (_norm rn) _ s.rooms)).Nodup
    rw [keys_dmodify]
    exact h.rooms_nodup
  · exact h.customers_nodup
  · exact nodup_dinsert _ _ h.bookings_nodup
  · show (dmodify (_norm rn) _ s.rooms).length ≤ max_rooms
    rw [length_dmodify]
    exact h.rooms_le
  · intro k hk
    rw [keys_dmodify] at hk
    exact h.room_keys_norm k hk
  · exact h.cust_keys_norm
  · exact h.phones_norm
  · exact h.phones_nodup
  · intro b hb
    rcases mem_dinsert hb with h1 | h1
    · subst h1
      rw [dmem, hc]
      rfl
    · exact h.book_cust_mem b h1
  · refine pairwise_dinsert h.book_cust_uniq ?_
    intro p hp
    exact ⟨fun hc' => hnocust p hp (hc'.symm), hnocust p hp⟩
  · intro b hb
    rcases mem_dinsert hb with h1 | h1
    · subst h1
      exact ⟨{ r with is_occupied := true }, dlookup_dmodify_self _ hr, rfl⟩
    · obtain ⟨rb, hrb, hrocc⟩ := h.book_room_occ b h1
      refine ⟨rb, ?_, hrocc⟩
      rw [dlookup_dmodify_ne _ _ (hnobook b h1)]
      exact hrb
  · refine pairwise_dinsert h.book_room_uniq ?_
    intro p hp
    exact ⟨fun hc' => hnobook p hp (hc'.symm), hnobook p hp⟩

/-- `checkout` preserves the invariant. -/
lemma inv_checkout (s : Store) (rn : String) (h : StoreInv s) :
    StoreInv (checkout s rn).state := by
  unfold checkout
  split
  · exact h
  next r hr =>
  split
  · exact h
  next hocc =>
  have hdel : ∀ p ∈ delFirstRoomBooking rn s.bookings, p.2.room_number ≠ rn :=
    mem_delFirstRoomBooking_ne h.book_room_uniq
  constructor
  · show (keys (dmodify rn _ s.rooms)).Nodup
    rw [keys_dmodify]
    exact h.rooms_nodup
  · exact h.customers_nodup
  · exact List.Nodup.sublist ((delFirstRoomBooking_sublist rn s.bookings).map _)
      h.bookings_nodup
  · show (dmodify rn _ s.rooms).length ≤ max_rooms
    rw [length_dmodify]
    exact h.rooms_le
  · intro k hk
    rw [keys_dmodify] at hk
    exact h.room_keys_norm k hk
  · exact h.cust_keys_norm
  · exact h.phones_norm
  · exact h.phones_nodup
  · intro b hb
    exact h.book_cust_mem b ((delFirstRoomBooking_sublist rn s.bookings).mem hb)
  · exact List.Pairwise.sublist (delFirstRoomBooking_sublist rn s.bookings) h.book_cust_uniq
  · intro b hb
    obtain ⟨rb, hrb, hrocc⟩ :=
      h.book_room_occ b ((delFirstRoomBooking_sublist rn s.bookings).mem hb)
    refine ⟨rb, ?_, hrocc⟩
    rw [dlookup_dmodify_ne _ _ (hdel b hb)]
    exact hrb
  · exact List.Pairwise.sublist (delFirstRoomBooking_sublist rn s.bookings) h.book_room_uniq

/-- Every single operation preserves the invariant. -/
lemma inv_step (s : Store) (op : Op) (h : StoreInv s) : StoreInv (step s op) := by
  cases op with
  | addRoom n t p => exact inv_add_room s n t p h
  | removeRoom n => exact inv_remove_room s n h
  | addCustomer c n p => exact inv_add_customer s c n p h
  | removeCustomer c => exact inv_remove_customer s c h
  | bookRoom c n => exact inv_book_room s c n h
  | checkoutOp n => exact inv_checkout s n h

/-- The invariant holds after any operation sequence. -/
lemma inv_foldl (ops : List Op) (s : Store) (h : StoreInv s) :
    StoreInv (ops.foldl step s) := by
  induction ops generalizing s with
  | nil => exact h
  | cons op rest ih => exact ih _ (inv_step s op h)

/-- Every reachable store satisfies the invariant. -/
lemma inv_reachable {s : Store} (h : Reachable s) : StoreInv s := by
  obtain ⟨ops, rfl⟩ := h
  exact inv_foldl ops emptyStore inv_empty

/-! ### Persistence: `save_data` / `load_data` (src/app.py lines 24-85)

The `csv` standard-library writer/reader pair is not code of this
repository; it is modelled as lossless transport of rows of string
fields (one `List String` per entity, headers omitted).  Python's
`str(float)`/`float(str)` round-trip, guaranteed by CPython's shortest
round-tripping float repr, is modelled by an exact codec on the
rational price; `str(bool)`/`.lower() == 'true'` is embedded directly. -/

/-- ASCII lowercasing of one character, the ASCII case of Python's
`str.lower()`. -/
def asciiLowerChar (c : Char) : Char :=
  if 'A' ≤ c ∧ c ≤ 'Z' then Char.ofNat (c.toNat + 32) else c

/-- ASCII lowercasing, the ASCII case of Python's `str.lower()`. -/
def asciiLower (s : String) : String := ⟨s.data.map asciiLowerChar⟩

/-- `str(b)` for a Python bool, as written by `save_data`. -/
def boolStr (b : Bool) : String := if b then "True" else "False"

/-- `row['is_occupied'].lower() == 'true'` (src/app.py line 32). -/
def parseBool (s : String) : Bool := asciiLower s = "true"

/-- The boolean field codec of the rooms table round-trips. -/
lemma parseBool_boolStr (b : Bool) : parseBool (boolStr b) = b := by
  cases b <;> rfl

/-- The character of a decimal digit. -/
def digitChar (d : Nat) : Char := Char.ofNat (48 + d)

/-- Decimal representation of a natural number (empty for zero). -/
def natStr (n : Nat) : String := ⟨((Nat.digits 10 n).map digitChar).reverse⟩

/-- Parse a big-endian decimal digit string. -/
def chars2nat (l : List Char) : Nat := Nat.ofDigits 10 (l.reverse.map charDigit)

/-- Reading back a written digit. -/
lemma charDigit_digitChar {d : Nat} (h : d < 10) : charDigit (digitChar d) = d := by
  interval_cases d <;> rfl

/-- The decimal codec for naturals round-trips. -/
lemma chars2nat_natStr (n : Nat) : chars2nat (natStr n).data = n := by
  show Nat.ofDigits 10 ((((Nat.digits 10 n).map digitChar).reverse).reverse.map charDigit) = n
  rw [List.reverse_reverse, List.map_map]
  have hmap : (Nat.digits 10 n).map (charDigit ∘ digitChar) = (Nat.digits 10 n).map id := by
    apply List.map_congr_left
    intro d hd
    exact charDigit_digitChar (Nat.digits_lt_base (by omega) hd)
  rw [hmap, List.map_id]
  exact Nat.ofDigits_digits 10 n

/-- Every character written by `natStr` is a decimal digit. -/
lemma natStr_digits (n : Nat) : ∀ c ∈ (natStr n).data, ∃ d, d < 10 ∧ c = digitChar d := by
  intro c hc
  have hc' : c ∈ (Nat.digits 10 n).map digitChar := List.mem_reverse.mp hc
  obtain ⟨d, hd, hdc⟩ := List.mem_map.mp hc'
  exact ⟨d, Nat.digits_lt_base (by omega) hd, hdc.symm⟩

/-- A digit character is not a slash. -/
lemma digitChar_ne_slash {d : Nat} (h : d < 10) : digitChar d ≠ '/' := by
  interval_cases d <;> decide

/-- A digit character is not a minus sign. -/
lemma digitChar_ne_dash {d : Nat} (h : d < 10) : digitChar d ≠ '-' := by
  interval_cases d <;> decide

/-- Signed decimal representation of an integer. -/
def intStr (n : Int) : String :=
  if n < 0 then "-" ++ natStr n.natAbs else natStr n.toNat

/-- Parse a signed big-endian decimal digit string. -/
def chars2int : List Char → Int
  | [] => 0
  | c :: rest => if c = '-' then -(chars2nat rest : Int) else (chars2nat (c :: rest) : Int)

/-- On dash-free input the signed parser agrees with the unsigned one. -/
lemma chars2int_no_dash {l : List Char} (h : ∀ c ∈ l, c ≠ '-') :
    chars2int l = (chars2nat l : Int) := by
  cases l with
  | nil => rfl
  | cons c rest =>
    rw [chars2int, if_neg (h c (by simp))]

/-- The signed decimal codec round-trips. -/
lemma chars2int_intStr (n : Int) : chars2int (intStr n).data = n := by
  by_cases h : n < 0
  · rw [intStr, if_pos h]
    have hdata : ("-" ++ natStr n.natAbs).data = '-' :: (natStr n.natAbs).data := by
      rw [String.data_append]
      rfl
    rw [hdata, chars2int, if_pos rfl, chars2nat_natStr]
    omega
  · rw [intStr, if_neg h]
    rw [chars2int_no_dash, chars2nat_natStr]
    · omega
    · intro c hc
      obtain ⟨d, hd, rfl⟩ := natStr_digits n.toNat c hc
      exact digitChar_ne_dash hd

/-- No character of `intStr` is a slash. -/
lemma intStr_no_slash (n : Int) : ∀ c ∈ (intStr n).data, c ≠ '/' := by
  intro c hc
  by_cases h : n < 0
  · rw [intStr, if_pos h] at hc
    have hdata : ("-" ++ natStr n.natAbs).data = '-' :: (natStr n.natAbs).data := by
      rw [String.data_append]
      rfl
    rw [hdata] at hc
    rcases List.mem_cons.mp hc with h1 | h1
    · rw [h1]
      decide
    · obtain ⟨d, hd, rfl⟩ := natStr_digits n.natAbs c h1
      exact digitChar_ne_slash hd
  · rw [intStr, if_neg h] at hc
    obtain ⟨d, hd, rfl⟩ := natStr_digits n.toNat c hc
    exact digitChar_ne_slash hd

/-- The price field as written by `save_data`, modelling `str(price)`:
an injective textual encoding of the exact rational. -/
def priceStr (q : ℚ) : String := intStr q.num ++ "/" ++ natStr q.den

/-- The price field as read by `load_data`, modelling `float(row['price'])`:
the inverse of `priceStr`. -/
def parsePrice (s : String) : ℚ :=
  let num := chars2int (s.data.takeWhile (fun c => !(c = '/')))
  let den := chars2nat ((s.data.dropWhile (fun c => !(c = '/'))).drop 1)
  (num : ℚ) / (den : ℚ)

/-- Splitting at the first failing element. -/
lemma takeWhile_dropWhile_append {α : Type} {p : α → Bool} {l₁ l₂ : List α} {m : α}
    (h1 : ∀ c ∈ l₁, p c = true) (hm : p m = false) :
    (l₁ ++ m :: l₂).takeWhile p = l₁ ∧ (l₁ ++ m :: l₂).dropWhile p = m :: l₂ := by
  induction l₁ with
  | nil => simp [List.takeWhile_cons, List.dropWhile_cons, hm]
  | cons a t ih =>
    have ha : p a = true := h1 a (by simp)
    have ih' := ih (fun c hc => h1 c (by simp [hc]))
    constructor
    · rw [List.cons_append, List.takeWhile_cons, if_pos ha, ih'.1]
    · rw [List.cons_append, List.dropWhile_cons, if_pos ha, ih'.2]

/-- The price codec round-trips. -/
lemma parsePrice_priceStr (q : ℚ) : parsePrice (priceStr q) = q := by
  have hdata : (priceStr q).data = (intStr q.num).data ++ '/' :: (natStr q.den).data := by
    show ((intStr q.num ++ "/") ++ natStr q.den).data = _
    rw [String.data_append, String.data_append]
    simp
  have hno : ∀ c ∈ (intStr q.num).data, (!(c = '/') : Bool) = true := by
    intro c hc
    simpa using intStr_no_slash q.num c hc
  have hm : (!(('/' : Char) = '/') : Bool) = false := by decide
  obtain ⟨htake, hdrop⟩ := takeWhile_dropWhile_append hno hm
  rw [parsePrice]
  rw [hdata, htake, hdrop, List.drop_one, List.tail_cons, chars2int_intStr, chars2nat_natStr]
  exact Rat.num_div_den q

/-- Membership of a key in a concatenation of tables. -/
lemma dmem_append {α : Type} (k : String) (t₁ t₂ : Table α) :
    dmem k (t₁ ++ t₂) = (dmem k t₁ || dmem k t₂) := by
  induction t₁ with
  | nil => simp [dmem, dlookup]
  | cons q rest ih =>
    obtain ⟨k', v'⟩ := q
    by_cases hk : k' = k
    · simp [dmem, dlookup, hk]
    · show dmem k ((k', v') :: (rest ++ t₂)) = _
      rw [dmem, dlookup, if_neg hk, dmem, dlookup, if_neg hk]
      exact ih

/-- One row of the rooms table (src/app.py lines 60-65). -/
def roomRow (p : String × Room) : List String :=
  [p.1, p.2.room_type, priceStr p.2.price, boolStr p.2.is_occupied]

/-- The rooms table written by `save_data` (src/app.py lines 56-65). -/
def save_rooms (t : Table Room) : List (List String) := t.map roomRow

/-- The rooms loop of `load_data` (src/app.py lines 25-33), accumulating
into the current rooms dict. -/
def load_rooms (acc : Table Room) : List (List String) → Table Room
  | [] => acc
  | row :: rest =>
    load_rooms (dinsert (row.getD 0 "")
      ⟨row.getD 1 "", parsePrice (row.getD 2 ""), parseBool (row.getD 3 "")⟩ acc) rest

/-- One row of the customers table (src/app.py lines 71-75). -/
def customerRow (p : String × Customer) : List String :=
  [p.1, p.2.name, p.2.phone]

/-- The customers table written by `save_data` (src/app.py lines 67-75). -/
def save_customers (t : Table Customer) : List (List String) := t.map customerRow

/-- The customers loop of `load_data` (src/app.py lines 35-42). -/
def load_customers (acc : Table Customer) : List (List String) → Table Customer
  | [] => acc
  | row :: rest =>
    load_customers (dinsert (row.getD 0 "") ⟨row.getD 1 "", row.getD 2 ""⟩ acc) rest

/-- One row of the bookings table (src/app.py lines 81-85). -/
def bookingRow (p : String × Booking) : List String :=
  [p.1, p.2.customer_id, p.2.room_number]

/-- The bookings table written by `save_data` (src/app.py lines 77-85). -/
def save_bookings (t : Table Booking) : List (List String) := t.map bookingRow

/-- The bookings loop of `load_data` (src/app.py lines 44-51). -/
def load_bookings (acc : Table Booking) : List (List String) → Table Booking
  | [] => acc
  | row :: rest =>
    load_bookings (dinsert (row.getD 0 "") ⟨row.getD 1 "", row.getD 2 ""⟩ acc) rest

/-- Loading the saved rooms table appends it to the accumulator. -/
lemma load_rooms_save (t : Table Room) : ∀ acc : Table Room,
    (∀ p ∈ t, dmem p.1 acc = false) → NodupKeys t →
    load_rooms acc (save_rooms t) = acc ++ t := by
  induction t with
  | nil =>
    intro acc _ _
    simp [save_rooms, load_rooms]
  | cons p rest ih =>
    intro acc hdisj hnodup
    obtain ⟨k, r⟩ := p
    have hkacc : dmem k acc = false := hdisj (k, r) (by simp)
    have hval : (⟨(roomRow (k, r)).getD 1 "", parsePrice ((roomRow (k, r)).getD 2 ""),
        parseBool ((roomRow (k, r)).getD 3 "")⟩ : Room) = r := by
      show (⟨r.room_type, parsePrice (priceStr r.price), parseBool (boolStr r.is_occupied)⟩
          : Room) = r
      rw [parsePrice_priceStr, parseBool_boolStr]
    have hkey : (roomRow (k, r)).getD 0 "" = k := rfl
    have hnodup' : NodupKeys rest ∧ k ∉ keys rest := by
      have := hnodup
      rw [NodupKeys] at this
      have hcons : keys ((k, r) :: rest) = k :: keys rest := rfl
      rw [hcons, List.nodup_cons] at this
      exact ⟨this.2, this.1⟩
    show load_rooms (dinsert ((roomRow (k, r)).getD 0 "")
        ⟨(roomRow (k, r)).getD 1 "", parsePrice ((roomRow (k, r)).getD 2 ""),
         parseBool ((roomRow (k, r)).getD 3 "")⟩ acc) (save_rooms rest)
        = acc ++ (k, r) :: rest
    rw [hkey, hval, dinsert_fresh _ hkacc]
    rw [ih (acc ++ [(k, r)]) ?_ hnodup'.1]
    · simp
    · intro p hp
      rw [dmem_append]
      have h1 : dmem p.1 acc = false := hdisj p (List.mem_cons_of_mem _ hp)
      have h2 : dmem p.1 [(k, r)] = false := by
        rw [dmem_eq_false_iff]
        intro q hq
        rw [List.mem_singleton] at hq
        subst hq
        intro hc
        apply hnodup'.2
        have hc' : k = p.1 := hc
        rw [hc']
        exact List.mem_map.mpr ⟨p, hp, rfl⟩
      rw [h1, h2]
      rfl

/-- Loading the saved customers table appends it to the accumulator. -/
lemma load_customers_save (t : Table Customer) : ∀ acc : Table Customer,
    (∀ p ∈ t, dmem p.1 acc = false) → NodupKeys t →
    load_customers acc (save_customers t) = acc ++ t := by
  induction t with
  | nil =>
    intro acc _ _
    simp [save_customers, load_customers]
  | cons p rest ih =>
    intro acc hdisj hnodup
    obtain ⟨k, c⟩ := p
    have hkacc : dmem k acc = false := hdisj (k, c) (by simp)
    have hnodup' : NodupKeys rest ∧ k ∉ keys rest := by
      have := hnodup
      rw [NodupKeys] at this
      have hcons : keys ((k, c) :: rest) = k :: keys rest := rfl
      rw [hcons, List.nodup_cons] at this
      exact ⟨this.2, this.1⟩
    show load_customers (dinsert k c acc) (save_customers rest)
        = acc ++ (k, c) :: rest
    rw [dinsert_fresh _ hkacc]
    rw [ih (acc ++ [(k, c)]) ?_ hnodup'.1]
    · simp
    · intro p hp
      rw [dmem_append]
      have h1 : dmem p.1 acc = false := hdisj p (List.mem_cons_of_mem _ hp)
      have h2 : dmem p.1 [(k, c)] = false := by
        rw [dmem_eq_false_iff]
        intro q hq
        rw [List.mem_singleton] at hq
        subst hq
        intro hc
        apply hnodup'.2
        have hc' : k = p.1 := hc
        rw [hc']
        exact List.mem_map.mpr ⟨p, hp, rfl⟩
      rw [h1, h2]
      rfl

/-- Loading the saved bookings table appends it to the accumulator. -/
lemma load_bookings_save (t : Table Booking) : ∀ acc : Table Booking,
    (∀ p ∈ t, dmem p.1 acc = false) → NodupKeys t →
    load_bookings acc (save_bookings t) = acc ++ t := by
  induction t with
  | nil =>
    intro acc _ _
    simp [save_bookings, load_bookings]
  | cons p rest ih =>
    intro acc hdisj hnodup
    obtain ⟨k, b⟩ := p
    have hkacc : dmem k acc = false := hdisj (k, b) (by simp)
    have hnodup' : NodupKeys rest ∧ k ∉ keys rest := by
      have := hnodup
      rw [NodupKeys] at this
      have hcons : keys ((k, b) :: rest) = k :: keys rest := rfl
      rw [hcons, List.nodup_cons] at this
      exact ⟨this.2, this.1⟩
    show load_bookings (dinsert k b acc) (save_bookings rest)
        = acc ++ (k, b) :: rest
    rw [dinsert_fresh _ hkacc]
    rw [ih (acc ++ [(k, b)]) ?_ hnodup'.1]
    · simp
    · intro p hp
      rw [dmem_append]
      have h1 : dmem p.1 acc = false := hdisj p (List.mem_cons_of_mem _ hp)
      have h2 : dmem p.1 [(k, b)] = false := by
        rw [dmem_eq_false_iff]
        intro q hq
        rw [List.mem_singleton] at hq
        subst hq
        intro hc
        apply hnodup'.2
        have hc' : k = p.1 := hc
        rw [hc']
        exact List.mem_map.mpr ⟨p, hp, rfl⟩
      rw [h1, h2]
      rfl

/-- The three tables written by `save_data` (src/app.py lines 53-85),
as rows of string fields. -/
structure SavedData where
  rooms_rows : List (List String)
  customers_rows : List (List String)
  bookings_rows : List (List String)
deriving Repr, DecidableEq

/-- Embeds `HotelManagement.save_data` (src/app.py lines 53-85). -/
def save_data (s : Store) : SavedData :=
  ⟨save_rooms s.rooms, save_customers s.customers, save_bookings s.bookings⟩

/-- Embeds `HotelManagement.load_data` (src/app.py lines 24-51) run on an
empty store (fresh construction with all three files present). -/
def load_data (d : SavedData) : Store :=
  ⟨load_rooms [] d.rooms_rows, load_customers [] d.customers_rows,
   load_bookings [] d.bookings_rows⟩

/-! ### Per-operation characterization helpers -/

/-- `add_room` either leaves the store unchanged or reports success. -/
lemma add_room_state_or (s : Store) (n t : String) (p : Option ℚ) :
    (add_room s n t p).state = s ∨ (add_room s n t p).success = true := by
  unfold add_room
  dsimp only
  split
  · exact Or.inl rfl
  split
  · exact Or.inl rfl
  split
  · exact Or.inl rfl
  split
  · exact Or.inl rfl
  split
  · exact Or.inl rfl
  split
  · exact Or.inl rfl
  split
  · exact Or.inl rfl
  exact Or.inr rfl

/-- `remove_room` either leaves the store unchanged or reports success. -/
lemma remove_room_state_or (s : Store) (n : String) :
    (remove_room s n).state = s ∨ (remove_room s n).success = true := by
  unfold remove_room
  split
  · exact Or.inl rfl
  split
  · exact Or.inl rfl
  exact Or.inr rfl

/-- `add_customer` either leaves the store unchanged or reports success. -/
lemma add_customer_state_or (s : Store) (c n p : String) :
    (add_customer s c n p).state = s ∨ (add_customer s c n p).success = true := by
  unfold add_customer
  dsimp only
  split
  · exact Or.inl rfl
  split
  · exact Or.inl rfl
  split
  · exact Or.inl rfl
  exact Or.inr rfl

/-- `remove_customer` either leaves the store unchanged or reports success. -/
lemma remove_customer_state_or (s : Store) (c : String) :
    (remove_customer s c).state = s ∨ (remove_customer s c).success = true := by
  unfold remove_customer
  split
  · exact Or.inl rfl
  split
  · exact Or.inl rfl
  exact Or.inr rfl

/-- `book_room` either leaves the store unchanged or reports success. -/
lemma book_room_state_or (s : Store) (c n : String) :
    (book_room s c n).state = s ∨ (book_room s c n).success = true := by
  unfold book_room
  dsimp only
  split
  case h_2 => exact Or.inl rfl
  split
  · exact Or.inl rfl
  split
  · exact Or.inl rfl
  exact Or.inr rfl

/-- `checkout` either leaves the store unchanged or reports success. -/
lemma checkout_state_or (s : Store) (n : String) :
    (checkout s n).state = s ∨ (checkout s n).success = true := by
  unfold checkout
  split
  · exact Or.inl rfl
  split
  · exact Or.inl rfl
  exact Or.inr rfl

/-- A successful `add_room` presupposes spare capacity. -/
lemma add_room_success_lt (s : Store) (n t : String) (p : Option ℚ)
    (h : (add_room s n t p).success = true) : s.rooms.length < max_rooms := by
  unfold add_room at h
  dsimp only at h
  split at h
  · cases h
  split at h
  · cases h
  split at h
  · cases h
  split at h
  · cases h
  split at h
  · cases h
  split at h
  · cases h
  split at h
  · cases h
  next hcap => omega

/-- `add_room` never touches the customers table. -/
lemma add_room_customers (s : Store) (n t : String) (p : Option ℚ) :
    (add_room s n t p).state.customers = s.customers := by
  unfold add_room
  dsimp only
  split
  · rfl
  split
  · rfl
  split
  · rfl
  split
  · rfl
  split
  · rfl
  split
  · rfl
  split
  · rfl
  rfl

/-- `remove_room` never touches the customers table. -/
lemma remove_room_customers (s : Store) (n : String) :
    (remove_room s n).state.customers = s.customers := by
  unfold remove_room
  split
  · rfl
  split
  · rfl
  rfl

/-- `book_room` never touches the customers table. -/
lemma book_room_customers (s : Store) (c n : String) :
    (book_room s c n).state.customers = s.customers := by
  unfold book_room
  dsimp only
  split
  case h_2 => rfl
  split
  · rfl
  split
  · rfl
  rfl

/-- `checkout` never touches the customers table. -/
lemma checkout_customers (s : Store) (n : String) :
    (checkout s n).state.customers = s.customers := by
  unfold checkout
  split
  · rfl
  split
  · rfl
  rfl

/-- `remove_customer` at most deletes one customer record. -/
lemma remove_customer_sublist (s : Store) (c : String) :
    ((remove_customer s c).state.customers).Sublist s.customers := by
  unfold remove_customer
  split
  · exact List.Sublist.refl _
  split
  · exact List.Sublist.refl _
  exact ddelete_sublist c s.customers

/-- A successful `add_customer` presupposes a clean duplicate scan. -/
lemma add_customer_success_dup (s : Store) (cid nm ph : String)
    (h : (add_customer s cid nm ph).success = true) :
    dupCheck (_norm nm) (_norm ph) (s.customers.map (fun p => p.2)) = none := by
  unfold add_customer at h
  dsimp only at h
  split at h
  · cases h
  split at h
  · cases h
  split at h
  · cases h
  next hdup => exact hdup

/-- C10: every domain operation that returns success=false leaves the
entire store unchanged: for add_room, remove_room, add_customer,
remove_customer, book_room, and checkout, a failing call performs no
mutation of the rooms, customers, or bookings mappings. -/
theorem spec_C10 (s : Store) :
    (∀ n t p, (add_room s n t p).success = false → (add_room s n t p).state = s) ∧
    (∀ n, (remove_room s n).success = false → (remove_room s n).state = s) ∧
    (∀ c n p, (add_customer s c n p).success = false → (add_customer s c n p).state = s) ∧
    (∀ c, (remove_customer s c).success = false → (remove_customer s c).state = s) ∧
    (∀ c n, (book_room s c n).success = false → (book_room s c n).state = s) ∧
    (∀ n, (checkout s n).success = false → (checkout s n).state = s) := by
  refine ⟨fun n t p h => ?_, fun n h => ?_, fun c n p h => ?_, fun c h => ?_,
    fun c n h => ?_, fun n h => ?_⟩
  · rcases add_room_state_or s n t p with h1 | h1
    · exact h1
    · rw [h] at h1
      cases h1
  · rcases remove_room_state_or s n with h1 | h1
    · exact h1
    · rw [h] at h1
      cases h1
  · rcases add_customer_state_or s c n p with h1 | h1
    · exact h1
    · rw [h] at h1
      cases h1
  · rcases remove_customer_state_or s c with h1 | h1
    · exact h1
    · rw [h] at h1
      cases h1
  · rcases book_room_state_or s c n with h1 | h1
    · exact h1
    · rw [h] at h1
      cases h1
  · rcases checkout_state_or s n with h1 | h1
    · exact h1
    · rw [h] at h1
      cases h1

/-- Witness for C10: each of the six operations, failing on a concrete
input, keeps the empty store intact. -/
theorem spec_C10_witness :
    (add_room emptyStore "10" "T" (some 5)).state = emptyStore ∧
    (remove_room emptyStore "x").state = emptyStore ∧
    (add_customer emptyStore "" "n" "p").state = emptyStore ∧
    (remove_customer emptyStore "c").state = emptyStore ∧
    (book_room emptyStore "c" "r").state = emptyStore ∧
    (checkout emptyStore "r").state = emptyStore :=
  ⟨(spec_C10 emptyStore).1 "10" "T" (some 5) (by decide),
   (spec_C10 emptyStore).2.1 "x" (by decide),
   (spec_C10 emptyStore).2.2.1 "" "n" "p" (by decide),
   (spec_C10 emptyStore).2.2.2.1 "c" (by decide),
   (spec_C10 emptyStore).2.2.2.2.1 "c" "r" (by decide),
   (spec_C10 emptyStore).2.2.2.2.2 "r" (by decide)⟩

/-- C9: for every state in which room R exists, is flagged occupied, but
no booking references R, checkout(R) still returns success=true, deletes
no booking, and sets R's is_occupied to false. -/
theorem spec_C9 (s : Store) (rn : String) (r : Room)
    (hr : dlookup rn s.rooms = some r) (hocc : r.is_occupied = true)
    (hnb : ∀ p ∈ s.bookings, p.2.room_number ≠ rn) :
    (checkout s rn).success = true ∧
    (checkout s rn).state.bookings = s.bookings ∧
    dlookup rn (checkout s rn).state.rooms = some { r with is_occupied := false } := by
  unfold checkout
  rw [hr]
  simp only [hocc, Bool.not_true, Bool.false_eq_true, if_false]
  exact ⟨trivial, delFirstRoomBooking_eq_self hnb, dlookup_dmodify_self _ hr⟩

/-- Witness for C9: a store holding one occupied room and no bookings
(the store the booking-id collision of C1 can produce). -/
theorem spec_C9_witness :
    (checkout ⟨[("1001", ⟨"Std", 100, true⟩)], [], []⟩ "1001").success = true ∧
    (checkout ⟨[("1001", ⟨"Std", 100, true⟩)], [], []⟩ "1001").state.bookings = [] ∧
    dlookup "1001" (checkout ⟨[("1001", ⟨"Std", 100, true⟩)], [], []⟩ "1001").state.rooms
      = some ⟨"Std", 100, false⟩ :=
  spec_C9 ⟨[("1001", ⟨"Std", 100, true⟩)], [], []⟩ "1001" ⟨"Std", 100, true⟩
    (by decide) rfl (by simp)

/-- C3: in every state reachable from the empty store the rooms mapping
holds at most 20 entries, and with exactly 20 rooms add_room fails on
every input. -/
theorem spec_C3 (s : Store) (h : Reachable s) :
    s.rooms.length ≤ 20 ∧
    (s.rooms.length = 20 → ∀ n t p, (add_room s n t p).success = false) := by
  refine ⟨(inv_reachable h).rooms_le, ?_⟩
  intro h20 n t p
  by_contra hs
  have hs' : (add_room s n t p).success = true := by
    revert hs
    cases (add_room s n t p).success <;> simp
  have hlt := add_room_success_lt s n t p hs'
  rw [h20] at hlt
  exact absurd hlt (by simp [max_rooms])

/-- Witness for C3 at the (reachable) empty store. -/
theorem spec_C3_witness :
    emptyStore.rooms.length ≤ 20 ∧
    (emptyStore.rooms.length = 20 →
      ∀ n t p, (add_room emptyStore n t p).success = false) :=
  spec_C3 emptyStore ⟨[], rfl⟩

/-- C7: serializing the three tables with save_data and parsing them back
with load_data into an empty store reproduces the original state,
including each room's occupancy flag and price. -/
theorem spec_C7 (s : Store) (h1 : NodupKeys s.rooms) (h2 : NodupKeys s.customers)
    (h3 : NodupKeys s.bookings) : load_data (save_data s) = s := by
  obtain ⟨rr, cc, bb⟩ := s
  unfold load_data save_data
  dsimp only
  rw [load_rooms_save rr [] (fun p _ => rfl) h1,
      load_customers_save cc [] (fun p _ => rfl) h2,
      load_bookings_save bb [] (fun p _ => rfl) h3]
  simp

/-- Witness for C7 on a store with one room, customer and booking. -/
theorem spec_C7_witness :
    load_data (save_data ⟨[("1001", ⟨"Deluxe", 150, true⟩)], [("C1", ⟨"Ann", "111"⟩)],
        [("B1", ⟨"C1", "1001"⟩)]⟩)
      = ⟨[("1001", ⟨"Deluxe", 150, true⟩)], [("C1", ⟨"Ann", "111"⟩)],
        [("B1", ⟨"C1", "1001"⟩)]⟩ :=
  spec_C7 ⟨[("1001", ⟨"Deluxe", 150, true⟩)], [("C1", ⟨"Ann", "111"⟩)],
    [("B1", ⟨"C1", "1001"⟩)]⟩ (by decide) (by decide) (by decide)

/-- Operation sequence triggering the booking-id collision: after
checkout of room 1001 removes booking B1, the store holds one booking
(B2), so the next booking id is again `"B" + (1 + 1) = "B2"` and the
dict assignment overwrites customer C2's live booking for room 1002. -/
def bugOps : List Op :=
  [.addRoom "1001" "Std" (some 100), .addRoom "1002" "Std" (some 100),
   .addRoom "1003" "Std" (some 100),
   .addCustomer "C1" "Ann" "111", .addCustomer "C2" "Bob" "222",
   .addCustomer "C3" "Eve" "333",
   .bookRoom "C1" "1001", .bookRoom "C2" "1002",
   .checkoutOp "1001", .bookRoom "C3" "1003"]

/-- C1 fails on the code: after `bugOps`, room 1002 is reachable, still
flagged occupied, yet no booking in the bookings mapping references it
(the claim demands exactly one). -/
theorem spec_C1_bug :
    Reachable (runOps bugOps) ∧
    (dlookup "1002" (runOps bugOps).rooms).map (fun r => r.is_occupied) = some true ∧
    (runOps bugOps).bookings.all (fun p => !(p.2.room_number = "1002")) = true :=
  ⟨⟨bugOps, rfl⟩, by decide, by decide⟩

/-- C8 fails on the code: remove_room does not strip its input, so two
inputs differing only in leading whitespace can give different results
(src/app.py line 107 checks the raw string against the dict). -/
theorem spec_C8_counterexample :
    (remove_room ⟨[("1005", ⟨"Deluxe", 150, false⟩)], [], []⟩ "1005").success = true ∧
    (remove_room ⟨[("1005", ⟨"Deluxe", 150, false⟩)], [], []⟩ " 1005").success = false := by
  exact ⟨rfl, rfl⟩

/-- C8 as amended: only add_room, add_customer and book_room normalize
their string inputs (stripping surrounding whitespace before any
validation, with empty-after-trim failing); remove_room, remove_customer
and checkout use their inputs verbatim, so only the first three return
the same result on inputs differing in surrounding whitespace. -/
theorem spec_C8_amended (s : Store) :
    (∀ n t p, add_room s n t p = add_room s (pyStrip n) (pyStrip t) p) ∧
    (∀ c n p, add_customer s c n p = add_customer s (pyStrip c) (pyStrip n) (pyStrip p)) ∧
    (∀ c n, book_room s c n = book_room s (pyStrip c) (pyStrip n)) ∧
    (∀ n t p, pyStrip n = "" → (add_room s n t p).success = false) ∧
    (∀ n t p, pyStrip t = "" → (add_room s n t p).success = false) ∧
    (∀ c n p, pyStrip c = "" ∨ pyStrip n = "" ∨ pyStrip p = "" →
      (add_customer s c n p).success = false) ∧
    (∀ c n, pyStrip c = "" → dmem "" s.customers = false →
      (book_room s c n).success = false) := by
  refine ⟨?_, ?_, ?_, ?_, ?_, ?_, ?_⟩
  · intro n t p
    simp only [add_room, _norm_pyStrip]
  · intro c n p
    simp only [add_customer, _norm_pyStrip]
  · intro c n
    simp only [book_room, _norm_pyStrip]
  · intro n t p hn
    have h1 : _norm n = "" := by rw [_norm_eq_pyStrip, hn]
    simp [add_room, h1]
  · intro n t p ht
    have h1 : _norm t = "" := by rw [_norm_eq_pyStrip, ht]
    simp [add_room, h1]
  · intro c n p hor
    rcases hor with hc | hc | hc
    · have h1 : _norm c = "" := by rw [_norm_eq_pyStrip, hc]
      simp [add_customer, h1]
    · have h1 : _norm n = "" := by rw [_norm_eq_pyStrip, hc]
      simp [add_customer, h1]
    · have h1 : _norm p = "" := by rw [_norm_eq_pyStrip, hc]
      simp [add_customer, h1]
  · intro c n hc hnomem
    have h1 : _norm c = "" := by rw [_norm_eq_pyStrip, hc]
    have h2 : dlookup "" s.customers = none := by
      cases hq : dlookup "" s.customers with
      | none => rfl
      | some v =>
        rw [dmem, hq] at hnomem
        exact absurd hnomem (by simp)
    unfold book_room
    dsimp only
    rw [h1, h2]

/-- Witness for the amended C8: stripping-invariance of add_room on a
whitespace-padded room number, and failure of add_customer on an
all-whitespace customer id. -/
theorem spec_C8_witness :
    add_room emptyStore " 1005 " "Deluxe" (some 150)
      = add_room emptyStore "1005" "Deluxe" (some 150) ∧
    (add_customer emptyStore "  " "Ann" "111").success = false :=
  ⟨((spec_C8_amended emptyStore).1 " 1005 " "Deluxe" (some 150)).trans (by decide),
   (spec_C8_amended emptyStore).2.2.2.2.2.1 "  " "Ann" "111" (Or.inl (by decide))⟩

/-- C5: in every reachable state no two customers share a (normalized)
phone number; add_customer rejects any new customer whose normalized
phone matches an existing one; and no other operation modifies the
customers table (remove_customer only deletes records). -/
theorem spec_C5 (s : Store) (h : Reachable s) :
    (s.customers.map (fun p => pyStrip p.2.phone)).Nodup ∧
    (∀ cid nm ph, (∃ p ∈ s.customers, _norm p.2.phone = _norm ph) →
      (add_customer s cid nm ph).success = false) ∧
    (∀ n t pr, (add_room s n t pr).state.customers = s.customers) ∧
    (∀ n, (remove_room s n).state.customers = s.customers) ∧
    (∀ c n, (book_room s c n).state.customers = s.customers) ∧
    (∀ n, (checkout s n).state.customers = s.customers) ∧
    (∀ c, ((remove_customer s c).state.customers).Sublist s.customers) := by
  have hinv := inv_reachable h
  refine ⟨?_, ?_, add_room_customers s, remove_room_customers s,
    book_room_customers s, checkout_customers s, remove_customer_sublist s⟩
  · have hmap : s.customers.map (fun p => pyStrip p.2.phone)
        = s.customers.map (fun p => p.2.phone) :=
      List.map_congr_left (fun p hp => hinv.phones_norm p hp)
    rw [hmap]
    exact hinv.phones_nodup
  · intro cid nm ph hex
    obtain ⟨p, hp, hmatch⟩ := hex
    by_contra hs
    have hs' : (add_customer s cid nm ph).success = true := by
      revert hs
      cases (add_customer s cid nm ph).success <;> simp
    have hdup := add_customer_success_dup s cid nm ph hs'
    have hall := dupCheck_none hdup
    exact hall p.2 (List.mem_map.mpr ⟨p, hp, rfl⟩) hmatch

/-- Witness for C5 on a reachable one-customer store. -/
theorem spec_C5_witness :
    ((runOps [Op.addCustomer "C1" "Ann" "111"]).customers.map
      (fun p => pyStrip p.2.phone)).Nodup :=
  (spec_C5 (runOps [Op.addCustomer "C1" "Ann" "111"])
    ⟨[Op.addCustomer "C1" "Ann" "111"], rfl⟩).1

/-- C2: book_room succeeds iff (after normalization) the customer
exists, the room exists and is unoccupied, and no booking references the
customer; on success it stores exactly one booking under the key
`"B" + (booking count + 1)` and flips the room to occupied; an unknown
customer yields (false, "Invalid customer or room"). -/
theorem spec_C2 (s : Store) (cid rn : String) :
    ((book_room s cid rn).success = true ↔
      (dmem (_norm cid) s.customers = true ∧
       (∃ r, dlookup (_norm rn) s.rooms = some r ∧ r.is_occupied = false) ∧
       s.bookings.any (fun p => p.2.customer_id = _norm cid) = false)) ∧
    ((book_room s cid rn).success = true →
      (book_room s cid rn).state.bookings
        = dinsert ("B" ++ toString (s.bookings.length + 1)) ⟨_norm cid, _norm rn⟩
            s.bookings ∧
      (∃ r, dlookup (_norm rn) s.rooms = some r ∧
        dlookup (_norm rn) (book_room s cid rn).state.rooms
          = some { r with is_occupied := true }) ∧
      (book_room s cid rn).message = "Room " ++ _norm rn ++ " booked") ∧
    (dmem (_norm cid) s.customers = false →
      book_room s cid rn = ⟨false, "Invalid customer or room", s⟩) := by
  unfold book_room
  dsimp only
  cases hc : dlookup (_norm cid) s.customers with
  | none =>
    refine ⟨?_, ?_, ?_⟩
    · constructor
      · intro hfalse
        cases hfalse
      · rintro ⟨hmem, -, -⟩
        rw [dmem, hc] at hmem
        cases hmem
    · intro hfalse
      cases hfalse
    · intro _
      rfl
  | some c =>
    cases hr : dlookup (_norm rn) s.rooms with
    | none =>
      refine ⟨?_, ?_, ?_⟩
      · constructor
        · intro hfalse
          cases hfalse
        · rintro ⟨-, ⟨r, hrr, -⟩, -⟩
          cases hrr
      · intro hfalse
        cases hfalse
      · intro hmem
        rw [dmem, hc] at hmem
    | some r =>
      dsimp only
      by_cases hocc : r.is_occupied = true
      · rw [if_pos hocc]
        refine ⟨?_, ?_, ?_⟩
        · constructor
          · intro hfalse
            cases hfalse
          · rintro ⟨-, ⟨r', hrr, hro⟩, -⟩
            obtain rfl := Option.some_injective _ hrr
            rw [hocc] at hro
            cases hro
        · intro hfalse
          cases hfalse
        · intro hmem
          rw [dmem, hc] at hmem
          cases hmem
      · rw [if_neg hocc]
        by_cases hany : s.bookings.any (fun p => p.2.customer_id = _norm cid) = true
        · rw [if_pos hany]
          refine ⟨?_, ?_, ?_⟩
          · constructor
            · intro hfalse
              cases hfalse
            · rintro ⟨-, -, hany'⟩
              rw [hany'] at hany
              cases hany
          · intro hfalse
            cases hfalse
          · intro hmem
            rw [dmem, hc] at hmem
            cases hmem
        · rw [if_neg hany]
          have hany' : s.bookings.any (fun p => p.2.customer_id = _norm cid) = false := by
            simpa using hany
          have hocc' : r.is_occupied = false := by
            simpa using hocc
          refine ⟨?_, ?_, ?_⟩
          · constructor
            · intro _
              exact ⟨by rw [dmem, hc]; rfl, ⟨r, rfl, hocc'⟩, hany'⟩
            · intro _
              rfl
          · intro _
            exact ⟨rfl, ⟨r, rfl, dlookup_dmodify_self _ hr⟩, rfl⟩
          · intro hmem
            rw [dmem, hc] at hmem
            cases hmem

/-- Witness for C2: a successful booking in a one-room one-customer
store, and the unknown-customer failure message. -/
theorem spec_C2_witness :
    (book_room ⟨[("1001", ⟨"Std", 100, false⟩)], [("C1", ⟨"Ann", "111"⟩)], []⟩
        "C1" "1001").state.bookings = [("B1", ⟨"C1", "1001"⟩)] ∧
    book_room ⟨[("1001", ⟨"Std", 100, false⟩)], [("C1", ⟨"Ann", "111"⟩)], []⟩
        "C9" "1001"
      = ⟨false, "Invalid customer or room",
         ⟨[("1001", ⟨"Std", 100, false⟩)], [("C1", ⟨"Ann", "111"⟩)], []⟩⟩ :=
  ⟨((spec_C2 ⟨[("1001", ⟨"Std", 100, false⟩)], [("C1", ⟨"Ann", "111"⟩)], []⟩
      "C1" "1001").2.1 (by decide)).1,
   (spec_C2 ⟨[("1001", ⟨"Std", 100, false⟩)], [("C1", ⟨"Ann", "111"⟩)], []⟩
      "C9" "1001").2.2 (by decide)⟩

/-- C4: for any store, an input whose (normalized) room-number string
does not parse as an integer in [1001, 1020] makes add_room fail and
leave the store unchanged; with valid details and an in-range number, a
number already present yields (false, "Room N already exists"), and a
first valid add yields (true, "Room N added successfully") and inserts
the room with is_occupied=false. -/
theorem spec_C4 (s : Store) (n t : String) (p : Option ℚ) :
    ((pyInt (_norm n)).all (fun k => k < 1001 || 1020 < k) = true →
      (add_room s n t p).success = false ∧ (add_room s n t p).state = s) ∧
    (∀ pr k, p = some pr → 0 < pr → _norm n ≠ "" → _norm t ≠ "" →
      pyInt (_norm n) = some k → 1001 ≤ k → k ≤ 1020 →
      (dmem (_norm n) s.rooms = true →
        add_room s n t p = ⟨false, "Room " ++ _norm n ++ " already exists", s⟩) ∧
      (dmem (_norm n) s.rooms = false → s.rooms.length < max_rooms →
        add_room s n t p = ⟨true, "Room " ++ _norm n ++ " added successfully",
          { s with rooms := dinsert (_norm n) ⟨_norm t, pr, false⟩ s.rooms }⟩)) := by
  constructor
  · intro hall
    unfold add_room
    dsimp only
    split
    · exact ⟨rfl, rfl⟩
    split
    · exact ⟨rfl, rfl⟩
    split
    · exact ⟨rfl, rfl⟩
    split
    · exact ⟨rfl, rfl⟩
    next k hk =>
    split
    · exact ⟨rfl, rfl⟩
    next hrange =>
    exfalso
    rw [hk] at hall
    exact hrange hall
  · intro pr k hp h0 hn ht hk hk1 hk2
    have hc1 : (decide (_norm n = "") || decide (_norm t = "")) = false := by
      simp [hn, ht]
    have hc2 : (decide (k < 1001) || decide (1020 < k)) = false := by
      simp only [Bool.or_eq_false_iff, decide_eq_false_iff_not, not_lt]
      exact ⟨hk1, hk2⟩
    unfold add_room
    dsimp only
    rw [hc1, hp, hk]
    simp only [Bool.false_eq_true, if_false]
    rw [if_neg (not_le.mpr h0), hc2]
    simp only [Bool.false_eq_true, if_false]
    constructor
    · intro hmem
      rw [hmem, if_pos rfl]
    · intro hmem hlt
      rw [hmem]
      simp only [Bool.false_eq_true, if_false]
      rw [if_neg (not_le.mpr hlt)]

/-- Witness for C4: an out-of-range number fails and leaves the empty
store unchanged; a first valid add of 1005 inserts the room. -/
theorem spec_C4_witness :
    ((add_room emptyStore "999" "T" (some 5)).success = false ∧
      (add_room emptyStore "999" "T" (some 5)).state = emptyStore) ∧
    add_room emptyStore "1005" "Deluxe" (some 150)
      = ⟨true, "Room 1005 added successfully",
         ⟨[("1005", ⟨"Deluxe", 150, false⟩)], [], []⟩⟩ :=
  ⟨(spec_C4 emptyStore "999" "T" (some 5)).1 (by decide),
   ((spec_C4 emptyStore "1005" "Deluxe" (some 150)).2 150 1005 rfl (by decide)
      (by decide) (by decide) (by decide) (by decide) (by decide)).2
      (by decide) (by decide)⟩

/-- C6: in a reachable state where the booking (bid, bk) references room
R on behalf of customer C, checkout(R) succeeds, a subsequent
book_room(C, R) succeeds, and afterwards R is occupied again. -/
theorem spec_C6 (s : Store) (R C : String) (hreach : Reachable s)
    (bid : String) (bk : Booking) (hmem : (bid, bk) ∈ s.bookings)
    (hroom : bk.room_number = R) (hcust : bk.customer_id = C) :
    (checkout s R).success = true ∧
    (book_room (checkout s R).state C R).success = true ∧
    ∃ r, dlookup R (book_room (checkout s R).state C R).state.rooms = some r ∧
      r.is_occupied = true := by
  have hinv := inv_reachable hreach
  obtain ⟨r, hr, hocc⟩ := hinv.book_room_occ (bid, bk) hmem
  rw [hroom] at hr
  have hcm : dmem C s.customers = true := by
    have h := hinv.book_cust_mem (bid, bk) hmem
    rwa [hcust] at h
  obtain ⟨cval, hcval⟩ : ∃ cv, dlookup C s.customers = some cv := by
    rw [dmem] at hcm
    exact Option.isSome_iff_exists.mp hcm
  have hCnorm : _norm C = C := by
    obtain ⟨hstrip, hne⟩ := hinv.cust_keys_norm C (dlookup_mem_keys hcval)
    rw [_norm_eq_pyStrip, hstrip]
  have hRnorm : _norm R = R := by
    obtain ⟨hstrip, hne⟩ := hinv.room_keys_norm R (dlookup_mem_keys hr)
    rw [_norm_eq_pyStrip, hstrip]
  have hck : checkout s R = ⟨true, "Room " ++ R ++ " checked out",
      ⟨dmodify R (fun r0 => { r0 with is_occupied := false }) s.rooms,
       s.customers, delFirstRoomBooking R s.bookings⟩⟩ := by
    unfold checkout
    rw [hr]
    simp only [hocc, Bool.not_true, Bool.false_eq_true, if_false]
  have hanyf : ∀ p ∈ delFirstRoomBooking R s.bookings, p.2.customer_id ≠ C := by
    intro p hp hpc
    have hpmem : p ∈ s.bookings := (delFirstRoomBooking_sublist R s.bookings).mem hp
    have hpne : p.2.room_number ≠ R := mem_delFirstRoomBooking_ne hinv.book_room_uniq p hp
    by_cases hpeq : p = (bid, bk)
    · rw [hpeq] at hpne
      exact hpne hroom
    · have hsymm : Symmetric (fun p q : String × Booking =>
          p.2.customer_id ≠ q.2.customer_id) := fun a b hab => fun hba => hab hba.symm
      have hne := List.Pairwise.forall hsymm hinv.book_cust_uniq hpmem hmem hpeq
      exact hne (hpc.trans hcust.symm)
  have hany : (delFirstRoomBooking R s.bookings).any
      (fun p => p.2.customer_id = C) = false := by
    by_contra hq
    have hq' : (delFirstRoomBooking R s.bookings).any
        (fun p => p.2.customer_id = C) = true := by
      revert hq
      cases (delFirstRoomBooking R s.bookings).any (fun p => p.2.customer_id = C) <;> simp
    obtain ⟨p, hp, hpc⟩ := List.any_eq_true.mp hq'
    exact hanyf p hp (by simpa using hpc)
  have hlook2 : dlookup R (dmodify R (fun r0 => { r0 with is_occupied := false }) s.rooms)
      = some { r with is_occupied := false } :=
    dlookup_dmodify_self _ hr
  have hbk : book_room (checkout s R).state C R
      = ⟨true, "Room " ++ R ++ " booked",
         ⟨dmodify R (fun r0 => { r0 with is_occupied := true })
            (dmodify R (fun r0 => { r0 with is_occupied := false }) s.rooms),
          s.customers,
          dinsert ("B" ++ toString ((delFirstRoomBooking R s.bookings).length + 1))
            ⟨C, R⟩ (delFirstRoomBooking R s.bookings)⟩⟩ := by
    rw [hck]
    unfold book_room
    dsimp only
    rw [hCnorm, hRnorm, hcval, hlook2]
    dsimp only
    rw [if_neg (by simp), hany]
    simp only [Bool.false_eq_true, if_false]
  refine ⟨by rw [hck], by rw [hbk], ?_⟩
  refine ⟨{ r with is_occupied := true } , ?_, rfl⟩
  rw [hbk]
  have hfin := dlookup_dmodify_self
    (fun r0 => { r0 with is_occupied := true }) hlook2
  exact hfin

/-- Witness for C6: book room 1001 for C1, check out, rebook. -/
theorem spec_C6_witness :
    (checkout (runOps [Op.addRoom "1001" "Std" (some 100),
        Op.addCustomer "C1" "Ann" "111", Op.bookRoom "C1" "1001"]) "1001").success
      = true ∧
    (book_room (checkout (runOps [Op.addRoom "1001" "Std" (some 100),
        Op.addCustomer "C1" "Ann" "111", Op.bookRoom "C1" "1001"]) "1001").state
        "C1" "1001").success = true ∧
    ∃ r, dlookup "1001" (book_room (checkout (runOps [Op.addRoom "1001" "Std" (some 100),
        Op.addCustomer "C1" "Ann" "111", Op.bookRoom "C1" "1001"]) "1001").state
        "C1" "1001").state.rooms = some r ∧ r.is_occupied = true :=
  spec_C6 (runOps [Op.addRoom "1001" "Std" (some 100),
      Op.addCustomer "C1" "Ann" "111", Op.bookRoom "C1" "1001"]) "1001" "C1"
    ⟨[Op.addRoom "1001" "Std" (some 100), Op.addCustomer "C1" "Ann" "111",
      Op.bookRoom "C1" "1001"], rfl⟩
    "B1" ⟨"C1", "1001"⟩ (by decide) rfl rfl
